import Mathlib

/-!
Verification of the zoekt-mcp response-rendering pipeline (`src/main.rs`).

The Rust source is shallowly embedded: Rust `String`/`&str` become Lean
`String`, byte vectors become `List Nat` (each element `< 256`), `u32`/`u64`
become `Nat` with explicit `% 2 ^ 32` at the places where the source performs
machine arithmetic that can wrap, and fallible code returns `Option`.
-/

namespace Zoekt

/-- Split a character list at every newline character.  This is the
intermediate splitting underlying the model of Rust `str::lines`. -/
def splitNl : List Char → List (List Char)
  | [] => [[]]
  | c :: t =>
    if c = '\n' then [] :: splitNl t
    else
      match splitNl t with
      | [] => [[c]]
      | h :: r => (c :: h) :: r

/-- Remove a single trailing carriage return from a segment, as Rust
`str::lines` does for lines terminated by `\r\n`. -/
def dropCr (l : List Char) : List Char :=
  if l.getLast? = some '\r' then l.dropLast else l

/-- Apply `f` to every element of the list except the last one.  Used to model
that Rust `str::lines` only strips `\r` from segments that were actually
terminated by a newline. -/
def mapButLast (f : List Char → List Char) : List (List Char) → List (List Char)
  | [] => []
  | [l] => [l]
  | l :: r => f l :: mapButLast f r

/-- Model of Rust `str::lines`: split on `\n`, drop the final empty segment
produced by a trailing newline, and strip one `\r` from the end of every
newline-terminated segment. -/
def strLines (s : String) : List String :=
  let parts := splitNl s.data
  if parts.getLast? = some [] then
    (parts.dropLast.map dropCr).map String.mk
  else
    (mapButLast dropCr parts).map String.mk

/-- Concatenate a list of lines, terminating each with a newline; models a
sequence of `writeln!` calls into a `String` buffer. -/
def unlines (ls : List String) : String :=
  ls.foldr (fun l acc => l ++ "\n" ++ acc) ""

/-- The Unicode `White_Space` property, which is what Rust
`char::is_whitespace` (used by `str::trim_end`) tests. -/
def isRustWhitespace (c : Char) : Bool :=
  let n := c.toNat
  n = 9 || n = 10 || n = 11 || n = 12 || n = 13 || n = 32 || n = 133 ||
    n = 160 || n = 5760 || (8192 ≤ n && n ≤ 8202) || n = 8232 || n = 8233 ||
    n = 8239 || n = 8287 || n = 12288

/-- Model of Rust `str::trim_end`: remove trailing whitespace characters. -/
def trimEnd (s : String) : String :=
  String.mk ((s.data.reverse.dropWhile isRustWhitespace).reverse)

/-! ### Base64 (the `base64` crate's `general_purpose::STANDARD` engine) -/

/-- The character of the standard base64 alphabet at index `n` (`n < 64`). -/
def sextetChar (n : Nat) : Char :=
  if n < 26 then Char.ofNat (65 + n)
  else if n < 52 then Char.ofNat (97 + (n - 26))
  else if n < 62 then Char.ofNat (48 + (n - 52))
  else if n = 62 then Char.ofNat 43
  else Char.ofNat 47

/-- Inverse of the standard base64 alphabet: the six-bit value of a character,
or `none` if the character is not in the alphabet. -/
def sextetOf (c : Char) : Option Nat :=
  let n := c.toNat
  if 65 ≤ n ∧ n ≤ 90 then some (n - 65)
  else if 97 ≤ n ∧ n ≤ 122 then some (n - 97 + 26)
  else if 48 ≤ n ∧ n ≤ 57 then some (n - 48 + 52)
  else if n = 43 then some 62
  else if n = 47 then some 63
  else none

/-- Standard (padded) base64 encoding of a byte list. -/
def b64encodeList : List Nat → List Char
  | b0 :: b1 :: b2 :: rest =>
    sextetChar (b0 / 4) :: sextetChar ((b0 % 4) * 16 + b1 / 16) ::
      sextetChar ((b1 % 16) * 4 + b2 / 64) :: sextetChar (b2 % 64) ::
      b64encodeList rest
  | [b0, b1] =>
    [sextetChar (b0 / 4), sextetChar ((b0 % 4) * 16 + b1 / 16),
      sextetChar ((b1 % 16) * 4), '=']
  | [b0] =>
    [sextetChar (b0 / 4), sextetChar ((b0 % 4) * 16), '=', '=']
  | [] => []

/-- Standard base64 decoding with the `STANDARD` engine's configuration:
canonical padding is required (input length a multiple of four, `=` only at
the end) and non-zero trailing bits are rejected. -/
def b64decodeList : List Char → Option (List Nat)
  | [] => some []
  | c0 :: c1 :: c2 :: c3 :: rest => do
    let s0 ← sextetOf c0
    let s1 ← sextetOf c1
    if c2 = '=' then
      if c3 = '=' ∧ rest = [] then
        if s1 % 16 = 0 then pure [s0 * 4 + s1 / 16] else none
      else none
    else do
      let s2 ← sextetOf c2
      if c3 = '=' then
        if rest = [] then
          if s2 % 4 = 0 then
            pure [s0 * 4 + s1 / 16, (s1 % 16) * 16 + s2 / 4]
          else none
        else none
      else do
        let s3 ← sextetOf c3
        let ds ← b64decodeList rest
        pure ((s0 * 4 + s1 / 16) :: ((s1 % 16) * 16 + s2 / 4) ::
          ((s2 % 4) * 64 + s3) :: ds)
  | _ => none

/-- Base64-encode a byte list into a string. -/
def b64encode (bs : List Nat) : String :=
  String.mk (b64encodeList bs)

/-! ### UTF-8 validation/decoding (Rust `String::from_utf8`) -/

/-- Whether a byte is a UTF-8 continuation byte (`10xxxxxx`). -/
def isCont (b : Nat) : Bool :=
  128 ≤ b && b < 192

/-- Strict UTF-8 decoding of a byte list, rejecting exactly what Rust
`String::from_utf8` rejects: stray continuation bytes, overlong forms,
surrogate code points, values above `0x10FFFF`, and truncated sequences. -/
def utf8Decode? : List Nat → Option (List Char)
  | [] => some []
  | b :: rest =>
    if b < 128 then
      (utf8Decode? rest).map (fun cs => Char.ofNat b :: cs)
    else if b < 194 then none
    else if b < 224 then
      match rest with
      | b1 :: rest1 =>
        if isCont b1 then
          (utf8Decode? rest1).map
            (fun cs => Char.ofNat ((b - 192) * 64 + (b1 - 128)) :: cs)
        else none
      | [] => none
    else if b < 240 then
      match rest with
      | b1 :: b2 :: rest2 =>
        if isCont b1 && isCont b2 then
          let n := (b - 224) * 4096 + (b1 - 128) * 64 + (b2 - 128)
          if 2048 ≤ n && (n < 55296 || 57344 ≤ n) then
            (utf8Decode? rest2).map (fun cs => Char.ofNat n :: cs)
          else none
        else none
      | _ => none
    else if b < 245 then
      match rest with
      | b1 :: b2 :: b3 :: rest3 =>
        if isCont b1 && isCont b2 && isCont b3 then
          let n := (b - 240) * 262144 + (b1 - 128) * 4096 +
            (b2 - 128) * 64 + (b3 - 128)
          if 65536 ≤ n && n ≤ 1114111 then
            (utf8Decode? rest3).map (fun cs => Char.ofNat n :: cs)
          else none
        else none
      | _ => none
    else none

/-- UTF-8 encoding of one character. -/
def utf8EncodeChar (c : Char) : List Nat :=
  let n := c.toNat
  if n < 128 then [n]
  else if n < 2048 then [192 + n / 64, 128 + n % 64]
  else if n < 65536 then
    [224 + n / 4096, 128 + (n / 64) % 64, 128 + n % 64]
  else
    [240 + n / 262144, 128 + (n / 4096) % 64, 128 + (n / 64) % 64,
      128 + n % 64]

/-- UTF-8 encoding of a character list (the byte representation of a Rust
`String`). -/
def utf8Encode (cs : List Char) : List Nat :=
  cs.flatMap utf8EncodeChar

/-! ### The payload decoder (`decode_b64` in `src/main.rs`) -/

/-- Model of `decode_b64`: empty input short-circuits to empty; otherwise try
a standard base64 decode followed by UTF-8 validation, and on any failure
return the input unchanged. -/
def decode_b64 (s : String) : String :=
  if s.data = [] then ""
  else
    match b64decodeList s.data with
    | some bytes =>
      match utf8Decode? bytes with
      | some cs => String.mk cs
      | none => s
    | none => s

/-! ### Result model (the deserialized Zoekt search/list responses)

Unsigned integer fields (`u32`/`u64` in the source) are modelled as `Nat`;
floating-point score fields are omitted because no renderer reads them. -/

structure Location where
  byte_offset : Nat
  line_number : Nat
  column : Nat

/-- A match span.  The source field named `end` is spelled `stop` here
because `end` is a Lean keyword. -/
structure Range where
  start : Location
  stop : Location

structure SymbolInfo where
  sym : String
  kind : String
  parent : String
  parent_kind : String

structure ChunkMatch where
  content : String
  content_start : Location
  ranges : List Range
  symbol_info : Option (List (Option SymbolInfo))

structure LineMatch where
  line : String
  line_number : Nat
  before : Option String
  after : Option String
  file_name_match : Bool

structure FileMatch where
  file_name : String
  repository : String
  language : String
  branches : List String
  version : String
  chunk_matches : Option (List ChunkMatch)
  line_matches : Option (List LineMatch)
  content : String

structure SearchResult where
  match_count : Nat
  file_count : Nat
  duration : Nat
  files : Option (List FileMatch)

structure SearchResponse where
  result : SearchResult

structure BranchInfo where
  name : String
  version : String

structure RepoInfo where
  name : String
  url : String
  branches : List BranchInfo
  has_symbols : Bool

structure RepoStats where
  documents : Nat
  content_bytes : Nat
  index_bytes : Nat

structure RepoEntry where
  repository : RepoInfo
  stats : RepoStats

structure RepoList where
  repos : Option (List RepoEntry)

structure ListResponse where
  list : RepoList

/-! ### Content renderer (`format_content`) -/

/-- One chunk-content output line: the match marker, the line number and the
line text, as written by `writeln!(out, "{marker}{line_num}:{line}")`. -/
def chunkLineOut (chunk : ChunkMatch) (num : Nat) (line : String) : String :=
  let is_match := chunk.ranges.any fun r =>
    decide (r.start.line_number ≤ num ∧ num ≤ r.stop.line_number)
  (if is_match then ">" else " ") ++ Nat.repr num ++ ":" ++ line

/-- The chunk-content loop of `format_content`, carrying the zero-based
enumeration index `i`.  The printed number is `start + i as u32` computed in
`u32` arithmetic, hence the `% 2 ^ 32` reductions. -/
def chunkContentLinesFrom (chunk : ChunkMatch) (i : Nat) :
    List String → List String
  | [] => []
  | l :: ls =>
    chunkLineOut chunk ((chunk.content_start.line_number + i % 2 ^ 32) % 2 ^ 32) l ::
      chunkContentLinesFrom chunk (i + 1) ls

/-- All numbered content lines emitted for one chunk. -/
def chunkContentLines (chunk : ChunkMatch) : List String :=
  chunkContentLinesFrom chunk 0 (strLines (decode_b64 chunk.content))

/-- The symbol-annotation lines emitted for one chunk: present annotations
only, each written as
`writeln!(out, "  symbol: {}{}{}", sym.sym, kind, parent)`. -/
def chunkSymbolLines (chunk : ChunkMatch) : List String :=
  match chunk.symbol_info with
  | none => []
  | some syms =>
    (syms.filterMap id).map fun sym =>
      let parent := if sym.parent = "" then "" else " in " ++ sym.parent
      let kind := if sym.kind = "" then "" else " [" ++ sym.kind ++ "]"
      "  symbol: " ++ sym.sym ++ kind ++ parent

/-- The saturating line-number computation for a before-context line:
`m.line_number.saturating_sub(before.lines().count() as u32 - i as u32)`.
The inner subtraction is wrapping `u32` subtraction of the truncated count
and index; the outer saturating subtraction is `Nat` subtraction. -/
def beforeNum (ln c i : Nat) : Nat :=
  ln - ((c % 2 ^ 32 + 2 ^ 32 - i % 2 ^ 32) % 2 ^ 32)

/-- The before-context loop of the line-form branch. -/
def beforeLinesFrom (ln c : Nat) (i : Nat) : List String → List String
  | [] => []
  | l :: ls =>
    (" " ++ Nat.repr (beforeNum ln c i) ++ ":" ++ l) ::
      beforeLinesFrom ln c (i + 1) ls

/-- The after-context loop of the line-form branch; the printed number is
`m.line_number + 1 + i as u32` in `u32` arithmetic. -/
def afterLinesFrom (ln : Nat) (i : Nat) : List String → List String
  | [] => []
  | l :: ls =>
    (" " ++ Nat.repr ((ln + 1 + i % 2 ^ 32) % 2 ^ 32) ++ ":" ++ l) ::
      afterLinesFrom ln (i + 1) ls

/-- All output lines emitted for one line-form match: decoded before-context
lines (when the decoded text is non-empty), the match line itself, and
decoded after-context lines. -/
def lineMatchLines (m : LineMatch) : List String :=
  let decoded := decode_b64 m.line
  (match m.before with
   | some b =>
     let before := decode_b64 b
     if before = "" then []
     else beforeLinesFrom m.line_number (strLines before).length 0 (strLines before)
   | none => []) ++
  ((">" ++ Nat.repr m.line_number ++ ": " ++ trimEnd decoded) ::
  (match m.after with
   | some a =>
     let after := decode_b64 a
     if after = "" then []
     else afterLinesFrom m.line_number 0 (strLines after)
   | none => []))

/-- The per-file header line `"\n--- <name>[ (<language>)] ---"`. -/
def fileHeaderLine (file : FileMatch) : String :=
  let lang := if file.language = "" then "" else " (" ++ file.language ++ ")"
  "\n--- " ++ file.file_name ++ lang ++ " ---"

/-- The match-body lines of one file: the chunk branch when chunk matches are
present, else the line branch, else nothing. -/
def fileContentBody (file : FileMatch) : List String :=
  match file.chunk_matches with
  | some chunks =>
    chunks.flatMap fun chunk => chunkSymbolLines chunk ++ chunkContentLines chunk
  | none =>
    match file.line_matches with
    | some lms => lms.flatMap lineMatchLines
    | none => []

/-- Model of `format_content`. -/
def format_content (result : SearchResult) : String :=
  let files := result.files.getD []
  unlines ((Nat.repr result.match_count ++ " matches in " ++
      Nat.repr result.file_count ++ " files") ::
    files.flatMap fun file => fileHeaderLine file :: fileContentBody file)

/-! ### Summary renderers (`format_files`, `format_count`) -/

/-- Model of `format_files`. -/
def format_files (result : SearchResult) : String :=
  let files := result.files.getD []
  unlines (("Found " ++ Nat.repr result.file_count ++ " files") ::
    files.map fun file => file.file_name)

/-- The per-file count of `format_count`:
`chunk_matches.map(sum of range lengths).or_else(line_matches.map(len)).unwrap_or(0)`. -/
def fileMatchCount (file : FileMatch) : Nat :=
  (((file.chunk_matches.map fun c => (c.map fun cm => cm.ranges.length).sum).or
    (file.line_matches.map fun l => l.length)).getD 0)

/-- Model of `format_count`. -/
def format_count (result : SearchResult) : String :=
  let files := result.files.getD []
  unlines ((Nat.repr result.match_count ++ " matches in " ++
      Nat.repr result.file_count ++ " files") ::
    files.map fun file => file.file_name ++ ":" ++ Nat.repr (fileMatchCount file))

/-! ### Repository listing renderer (`format_repos`) -/

/-- Round-half-to-even of the fraction `n / d` to the nearest integer. -/
def roundHalfEven (n d : Nat) : Nat :=
  let q := n / d
  let r := n % d
  if 2 * r < d then q
  else if d < 2 * r then q + 1
  else if q % 2 = 0 then q else q + 1

/-- One-decimal rendering of `bytes / 1_048_576`.  This models
`bytes as f64 / 1_048_576.0` printed with `{:.1}`: the `f64` quotient is
exact for `bytes < 2 ^ 53` (conversion of such integers is exact and
division by a power of two only shifts the exponent), and Rust's float
formatting rounds the exact value half-to-even at the requested precision. -/
def fmtMB (bytes : Nat) : String :=
  let t := roundHalfEven (bytes * 10) 1048576
  Nat.repr (t / 10) ++ "." ++ Nat.repr (t % 10)

/-- The truncated branch version: the source slices the *byte* string,
`if branch.version.len() > 10 { &branch.version[..10] }`.  Slicing a Rust
`String` at a byte index that is not a character boundary panics; that
failure is modelled by `none` (the 10-byte prefix fails to re-decode). -/
def shortVersion (v : String) : Option String :=
  let bs := utf8Encode v.data
  if 10 < bs.length then (utf8Decode? (bs.take 10)).map String.mk
  else some v

/-- The `"    branch: <name> (<short_version>)"` line, `none` on a
mid-character version cut (a panic in the source). -/
def branchLine (b : BranchInfo) : Option String :=
  (shortVersion b.version).map fun sv =>
    "    branch: " ++ b.name ++ " (" ++ sv ++ ")"

/-- All lines emitted for one repository entry. -/
def repoLines (r : RepoEntry) : Option (List String) :=
  (r.repository.branches.mapM branchLine).map fun bls =>
    ("  " ++ r.repository.name ++ " — " ++ Nat.repr r.stats.documents ++
      " files, " ++ fmtMB r.stats.content_bytes ++ " MB content, " ++
      fmtMB r.stats.index_bytes ++ " MB index" ++
      (if r.repository.has_symbols then " [symbols]" else "")) :: bls

/-- Model of `format_repos`; `none` models a panic while slicing a branch
version. -/
def format_repos (resp : ListResponse) : Option String :=
  let repos := resp.list.repos.getD []
  (repos.mapM repoLines).map fun blocks =>
    unlines ((Nat.repr repos.length ++ " repositories indexed") :: blocks.flatten)

/-! ### Adapter/dispatcher (`post`, `search`, `list_repos`)

The HTTP transport and the serde deserializer are external collaborators;
they are modelled by an `HttpOutcome` describing what the network returned
for the issued request and by a `parse` function for the response body. -/

structure SearchInput where
  query : String
  limit : Option Nat
  context_lines : Option Nat
  output_mode : Option String

structure ListReposInput where
  query : Option String

structure SearchOpts where
  max_doc_display_count : Nat
  num_context_lines : Nat
  chunk_matches : Bool
  whole : Bool

structure SearchRequest where
  q : String
  opts : Option SearchOpts

structure ListRequest where
  q : String

/-- The status line of an HTTP response; `reqwest`'s `StatusCode` displays as
`"<code> <canonical reason>"`. -/
structure HttpStatus where
  code : Nat
  reason : String

/-- What the network produced for one request: a transport failure with its
cause, or a response with a status and a body. -/
inductive HttpOutcome where
  | unreachable (cause : String)
  | response (status : HttpStatus) (body : String)

/-- Display form of a status, as interpolated by `format!("{status}")`. -/
def statusDisplay (st : HttpStatus) : String :=
  Nat.repr st.code ++ " " ++ st.reason

/-- Model of `ZoektMcp::post`: convert the outcome of one HTTP round trip
into either a parsed response or a descriptive error string. -/
def post {R : Type} (parse : String → Except String R) (url : String)
    (outcome : HttpOutcome) : Except String R :=
  match outcome with
  | .unreachable cause =>
    .error ("Cannot reach Zoekt at " ++ url ++ ": " ++ cause)
  | .response st body =>
    if 200 ≤ st.code ∧ st.code < 300 then
      match parse body with
      | .ok r => .ok r
      | .error cause => .error ("Failed to parse Zoekt response: " ++ cause)
    else
      .error ("Zoekt returned " ++ statusDisplay st ++ ": " ++ body)

/-- The request built by the `search` tool from its input. -/
def buildSearchRequest (input : SearchInput) : SearchRequest :=
  let mode := input.output_mode.getD "files_with_matches"
  { q := input.query
    opts := some
      { max_doc_display_count := input.limit.getD 25
        num_context_lines :=
          input.context_lines.getD (if mode = "content" then 2 else 0)
        chunk_matches := decide (mode = "content")
        whole := false } }

/-- Model of the `search` tool handler.  `outcome` maps the issued request to
what the network returned for it. -/
def search (base_url : String) (input : SearchInput)
    (parse : String → Except String SearchResponse)
    (outcome : SearchRequest → HttpOutcome) : String :=
  let mode := input.output_mode.getD "files_with_matches"
  let req := buildSearchRequest input
  match post parse (base_url ++ "/api/search") (outcome req) with
  | .ok parsed =>
    if mode = "content" then format_content parsed.result
    else if mode = "count" then format_count parsed.result
    else format_files parsed.result
  | .error e => e

/-- Model of the `list_repos` tool handler; `none` models a rendering panic
(see `format_repos`). -/
def list_repos (base_url : String) (input : ListReposInput)
    (parse : String → Except String ListResponse)
    (outcome : ListRequest → HttpOutcome) : Option String :=
  let req : ListRequest := { q := input.query.getD "" }
  match post parse (base_url ++ "/api/list") (outcome req) with
  | .ok parsed => format_repos parsed
  | .error e => some e

/-! ### Base64 round-trip lemmas -/

/-- Decoding the alphabet character of a six-bit value recovers the value. -/
theorem sextetOf_sextetChar : ∀ n < 64, sextetOf (sextetChar n) = some n := by
  decide

/-- Alphabet characters are never the padding character. -/
theorem sextetChar_ne_pad : ∀ n < 64, sextetChar n ≠ '=' := by
  decide

/-- Canonically decoding a standard base64 encoding recovers the bytes. -/
theorem b64_roundtrip : ∀ bs : List Nat, (∀ b ∈ bs, b < 256) →
    b64decodeList (b64encodeList bs) = some bs
  | [], _ => rfl
  | [b0], h => by
    have hb0 : b0 < 256 := h b0 (by simp)
    have h0 := sextetOf_sextetChar (b0 / 4) (by omega)
    have h1 := sextetOf_sextetChar (b0 % 4 * 16) (by omega)
    have h2 : b0 % 4 * 16 % 16 = 0 := by omega
    simp [b64encodeList, b64decodeList, h0, h1, h2]
    omega
  | [b0, b1], h => by
    have hb0 : b0 < 256 := h b0 (by simp)
    have hb1 : b1 < 256 := h b1 (by simp)
    have h0 := sextetOf_sextetChar (b0 / 4) (by omega)
    have h1 := sextetOf_sextetChar (b0 % 4 * 16 + b1 / 16) (by omega)
    have h2 := sextetOf_sextetChar (b1 % 16 * 4) (by omega)
    have hn2 := sextetChar_ne_pad (b1 % 16 * 4) (by omega)
    have hz : b1 % 16 * 4 % 4 = 0 := by omega
    simp [b64encodeList, b64decodeList, h0, h1, h2, hn2, hz]
    omega
  | b0 :: b1 :: b2 :: rest, h => by
    have hb0 : b0 < 256 := h b0 (by simp)
    have hb1 : b1 < 256 := h b1 (by simp)
    have hb2 : b2 < 256 := h b2 (by simp)
    have ih := b64_roundtrip rest (fun b hb => h b (by simp [hb]))
    have h0 := sextetOf_sextetChar (b0 / 4) (by omega)
    have h1 := sextetOf_sextetChar (b0 % 4 * 16 + b1 / 16) (by omega)
    have h2 := sextetOf_sextetChar (b1 % 16 * 4 + b2 / 64) (by omega)
    have h3 := sextetOf_sextetChar (b2 % 64) (by omega)
    have hn2 := sextetChar_ne_pad (b1 % 16 * 4 + b2 / 64) (by omega)
    have hn3 := sextetChar_ne_pad (b2 % 64) (by omega)
    simp [b64encodeList, b64decodeList, h0, h1, h2, h3, hn2, hn3, ih]
    omega

/-- A non-empty byte list has a non-empty encoding. -/
theorem b64encodeList_ne_nil : ∀ bs : List Nat, bs ≠ [] → b64encodeList bs ≠ []
  | [], h => absurd rfl h
  | [_], _ => by simp [b64encodeList]
  | [_, _], _ => by simp [b64encodeList]
  | _ :: _ :: _ :: _, _ => by simp [b64encodeList]

/-- Claim C3: the payload decoder is total on strings; it maps every standard
base64 encoding of UTF-8 bytes to the decoded text, the empty string to the
empty string, every string that decodes as base64 to valid UTF-8 to that
text, and every other string (invalid base64, or base64 of non-UTF-8 bytes)
to itself unchanged. -/
theorem decode_b64_spec :
    (∀ bs : List Nat, (∀ b ∈ bs, b < 256) → ∀ t : List Char,
        utf8Decode? bs = some t → decode_b64 (b64encode bs) = String.mk t) ∧
    decode_b64 "" = "" ∧
    (∀ s : String, ∀ bs : List Nat, ∀ t : List Char,
        b64decodeList s.data = some bs → utf8Decode? bs = some t →
        decode_b64 s = String.mk t) ∧
    (∀ s : String, b64decodeList s.data = none → decode_b64 s = s) ∧
    (∀ s : String, ∀ bs : List Nat, b64decodeList s.data = some bs →
        utf8Decode? bs = none → decode_b64 s = s) := by
  have hu0 : utf8Decode? ([] : List Nat) = some [] := rfl
  have hd0 : b64decodeList ([] : List Char) = some [] := rfl
  refine ⟨?_, by decide, ?_, ?_, ?_⟩
  · intro bs h t ht
    by_cases hbs : bs = []
    · subst hbs
      rw [hu0] at ht
      cases ht
      decide
    · have hne : b64encodeList bs ≠ [] := b64encodeList_ne_nil bs hbs
      have hdata : (b64encode bs).data = b64encodeList bs := rfl
      simp only [decode_b64, hdata, if_neg hne, b64_roundtrip bs h, ht]
  · intro s bs t hdec ht
    by_cases hs : s.data = []
    · rw [hs, hd0] at hdec
      cases hdec
      rw [hu0] at ht
      cases ht
      simp [decode_b64, hs]
    · simp only [decode_b64, if_neg hs, hdec, ht]
  · intro s hdec
    by_cases hs : s.data = []
    · rw [hs, hd0] at hdec
      cases hdec
    · simp only [decode_b64, if_neg hs, hdec]
  · intro s bs hdec hbad
    by_cases hs : s.data = []
    · rw [hs, hd0] at hdec
      cases hdec
      rw [hu0] at hbad
      cases hbad
    · simp only [decode_b64, if_neg hs, hdec, hbad]

/-- Witness for C3 at a concrete input: the base64 encoding of the bytes of
the text `hey` decodes back to `hey`. -/
theorem decode_b64_spec_witness :
    decode_b64 (b64encode [104, 101, 121]) = "hey" := by
  have h := decode_b64_spec.1 [104, 101, 121] (by decide) ['h', 'e', 'y']
    (by decide)
  exact h.trans (by decide)

/-! ### Claim C1: chunk-content line numbering and match marking -/

/-- Spec-side rendering of the chunk lines, following the claim's words:
each line of the decoded chunk content gets the absolute number
`content_start.line_number` plus its zero-based offset, prefixed with `>`
exactly when that number lies within some range of the chunk and with a
single space otherwise. -/
def specChunkLinesFrom (chunk : ChunkMatch) (i : Nat) :
    List String → List String
  | [] => []
  | l :: ls =>
    let num := chunk.content_start.line_number + i
    ((if chunk.ranges.any (fun r =>
        decide (r.start.line_number ≤ num ∧ num ≤ r.stop.line_number))
      then ">" else " ") ++ Nat.repr num ++ ":" ++ l) ::
      specChunkLinesFrom chunk (i + 1) ls

/-- Spec-side chunk rendering over the decoded content's lines. -/
def specChunkLines (chunk : ChunkMatch) : List String :=
  specChunkLinesFrom chunk 0 (strLines (decode_b64 chunk.content))

/-- As long as the absolute line numbers stay below `2 ^ 32`, the source's
`u32` arithmetic agrees with the plain numbering of the claim. -/
theorem chunkLinesFrom_eq (chunk : ChunkMatch) :
    ∀ ls : List String, ∀ i : Nat,
      chunk.content_start.line_number + i + ls.length ≤ 2 ^ 32 →
      chunkContentLinesFrom chunk i ls = specChunkLinesFrom chunk i ls
  | [], _, _ => rfl
  | l :: ls, i, h => by
    simp only [List.length_cons] at h
    have hnum : (chunk.content_start.line_number + i % 2 ^ 32) % 2 ^ 32 =
        chunk.content_start.line_number + i := by omega
    simp only [chunkContentLinesFrom, specChunkLinesFrom, hnum,
      chunkLinesFrom_eq chunk ls (i + 1) (by omega)]
    rfl

/-- Claim C1: every line of a decoded chunk is emitted with absolute number
`content_start.line_number` plus its zero-based offset, marked `>` exactly
when that number falls inside some range of the chunk and with a single
space otherwise (stated for chunks whose line numbers do not overflow
`u32`). -/
theorem chunk_lines_absolute_numbering (chunk : ChunkMatch)
    (h : chunk.content_start.line_number +
      (strLines (decode_b64 chunk.content)).length ≤ 2 ^ 32) :
    chunkContentLines chunk = specChunkLines chunk :=
  chunkLinesFrom_eq chunk _ 0 (by omega)

/-- The claim's particular example: a chunk starting at line 10 whose content
spans three lines, with one range `[11, 11]`. -/
def exChunkC1 : ChunkMatch :=
  { content := "alpha\nbravo\ncharlie"
    content_start := ⟨0, 10, 0⟩
    ranges := [⟨⟨0, 11, 0⟩, ⟨0, 11, 0⟩⟩]
    symbol_info := none }

/-- Witness for C1: on the claim's example exactly line 11 is marked `>` and
lines 10 and 12 get a space. -/
theorem chunk_lines_absolute_numbering_witness :
    chunkContentLines exChunkC1 = [" 10:alpha", ">11:bravo", " 12:charlie"] := by
  have h := chunk_lines_absolute_numbering exChunkC1 (by decide)
  exact h.trans (by decide)

/-! ### Claim C10: saturating before-context numbering -/

/-- Claim C10: the before-context numbering
`line_number.saturating_sub(count as u32 - i as u32)` is total and clamps at
zero: for the `i`-th of `c` decoded before-lines it equals the truncated
subtraction `line_number - (c - i)`, is zero whenever `c - i` reaches
`line_number`, and never exceeds `line_number` (no underflow or wrap). -/
theorem before_numbering_saturates (ln c i : Nat) (hi : i < c)
    (hc : c < 2 ^ 32) :
    beforeNum ln c i = ln - (c - i) ∧
      (ln ≤ c - i → beforeNum ln c i = 0) ∧ beforeNum ln c i ≤ ln := by
  unfold beforeNum
  omega

/-- Witness for C10: a before block of 5 lines ahead of match line 2 clamps
its first context numbers at 0. -/
theorem before_numbering_saturates_witness :
    beforeNum 2 5 1 = 2 - (5 - 1) ∧ (2 ≤ 5 - 1 → beforeNum 2 5 1 = 0) ∧
      beforeNum 2 5 1 ≤ 2 :=
  before_numbering_saturates 2 5 1 (by decide) (by decide)

/-! ### Claim C2: line-form rendering -/

/-- Spec-side before-context rendering: the `i`-th of `c` before lines is
numbered by counting backward from `line_number` (the last one getting
`line_number - 1`) and prefixed with a single space. -/
def specBeforeFrom (ln c : Nat) (i : Nat) : List String → List String
  | [] => []
  | l :: ls =>
    (" " ++ Nat.repr (ln - (c - i)) ++ ":" ++ l) ::
      specBeforeFrom ln c (i + 1) ls

/-- Spec-side after-context rendering: numbers start at `line_number + 1`
and increment, each line prefixed with a single space. -/
def specAfterFrom (ln : Nat) (i : Nat) : List String → List String
  | [] => []
  | l :: ls =>
    (" " ++ Nat.repr (ln + 1 + i) ++ ":" ++ l) :: specAfterFrom ln (i + 1) ls

/-- Spec-side rendering of one line-form match, following the claim's words:
backward-numbered before lines, then `"><line_number>: <right-trimmed line>"`,
then forward-numbered after lines. -/
def specLineMatchLines (m : LineMatch) : List String :=
  (match m.before with
   | some b =>
     let before := decode_b64 b
     if before = "" then []
     else specBeforeFrom m.line_number (strLines before).length 0 (strLines before)
   | none => []) ++
  ((">" ++ Nat.repr m.line_number ++ ": " ++ trimEnd (decode_b64 m.line)) ::
  (match m.after with
   | some a =>
     let after := decode_b64 a
     if after = "" then []
     else specAfterFrom m.line_number 0 (strLines after)
   | none => []))

/-- The `u32` before-context numbering agrees with the claim's backward
numbering while the index stays below the line count. -/
theorem beforeFrom_eq (ln c : Nat) (hc : c < 2 ^ 32) :
    ∀ ls : List String, ∀ i : Nat, i + ls.length ≤ c →
      beforeLinesFrom ln c i ls = specBeforeFrom ln c i ls
  | [], _, _ => rfl
  | l :: ls, i, h => by
    simp only [List.length_cons] at h
    have hn : beforeNum ln c i = ln - (c - i) := by unfold beforeNum; omega
    simp only [beforeLinesFrom, specBeforeFrom, hn,
      beforeFrom_eq ln c hc ls (i + 1) (by omega)]

/-- The `u32` after-context numbering agrees with the claim's forward
numbering while the numbers stay below `2 ^ 32`. -/
theorem afterFrom_eq (ln : Nat) :
    ∀ ls : List String, ∀ i : Nat, ln + 1 + i + ls.length ≤ 2 ^ 32 →
      afterLinesFrom ln i ls = specAfterFrom ln i ls
  | [], _, _ => rfl
  | l :: ls, i, h => by
    simp only [List.length_cons] at h
    have hn : (ln + 1 + i % 2 ^ 32) % 2 ^ 32 = ln + 1 + i := by omega
    simp only [afterLinesFrom, specAfterFrom, hn,
      afterFrom_eq ln ls (i + 1) (by omega)]

/-- Claim C2: for a line match the renderer emits the backward-numbered,
space-prefixed before lines, then `"><line_number>: "` followed by the
right-trimmed decoded line, then the forward-numbered, space-prefixed after
lines (stated away from `u32` overflow of the context numbering). -/
theorem line_match_lines_spec (m : LineMatch)
    (hb : ∀ b, m.before = some b →
      (strLines (decode_b64 b)).length < 2 ^ 32)
    (ha : ∀ a, m.after = some a →
      m.line_number + 1 + (strLines (decode_b64 a)).length ≤ 2 ^ 32) :
    lineMatchLines m = specLineMatchLines m := by
  have hbseg : ∀ b, m.before = some b →
      (if decode_b64 b = "" then []
       else beforeLinesFrom m.line_number (strLines (decode_b64 b)).length 0
        (strLines (decode_b64 b))) =
      (if decode_b64 b = "" then []
       else specBeforeFrom m.line_number (strLines (decode_b64 b)).length 0
        (strLines (decode_b64 b))) := by
    intro b hbm
    by_cases hemp : decode_b64 b = ""
    · simp [hemp]
    · simp only [if_neg hemp]
      exact beforeFrom_eq m.line_number _ (hb b hbm) _ 0 (by omega)
  have haseg : ∀ a, m.after = some a →
      (if decode_b64 a = "" then []
       else afterLinesFrom m.line_number 0 (strLines (decode_b64 a))) =
      (if decode_b64 a = "" then []
       else specAfterFrom m.line_number 0 (strLines (decode_b64 a))) := by
    intro a ham
    by_cases hemp : decode_b64 a = ""
    · simp [hemp]
    · simp only [if_neg hemp]
      refine afterFrom_eq m.line_number _ 0 ?_
      have := ha a ham
      omega
  cases hbm : m.before with
  | none =>
    cases ham : m.after with
    | none => simp only [lineMatchLines, specLineMatchLines, hbm, ham]
    | some a =>
      simp only [lineMatchLines, specLineMatchLines, hbm, ham, haseg a ham]
  | some b =>
    cases ham : m.after with
    | none =>
      simp only [lineMatchLines, specLineMatchLines, hbm, ham, hbseg b hbm]
    | some a =>
      simp only [lineMatchLines, specLineMatchLines, hbm, ham, hbseg b hbm,
        haseg a ham]

/-- A concrete line match with two before lines and one after line. -/
def exLineMatch : LineMatch :=
  { line := "the match line  "
    line_number := 5
    before := some "ctx1\nctx2"
    after := some "post1"
    file_name_match := false }

/-- Witness for C2: the concrete line match renders with before lines 3 and
4, the trimmed match line at 5, and the after line at 6. -/
theorem line_match_lines_spec_witness :
    lineMatchLines exLineMatch =
      [" 3:ctx1", " 4:ctx2", ">5: the match line", " 6:post1"] := by
  have h := line_match_lines_spec exLineMatch
    (by
      intro b hb
      injection hb with h
      subst h
      decide)
    (by
      intro a ha
      injection ha with h
      subst h
      decide)
  exact h.trans (by decide)

/-! ### Claim C4: count renderer -/

/-- Spec-side per-file count, following the claim's words: the sum of the
number of ranges over all chunk matches when chunk-form is present, else the
number of line matches when line-form is present, else 0. -/
def specFileCount (file : FileMatch) : Nat :=
  match file.chunk_matches with
  | some chunks => (chunks.map fun cm => cm.ranges.length).sum
  | none =>
    match file.line_matches with
    | some lms => lms.length
    | none => 0

/-- Spec-side count report: the summary line, then one `<name>:<count>` line
per file in input order. -/
def specFormatCount (result : SearchResult) : String :=
  unlines ((Nat.repr result.match_count ++ " matches in " ++
      Nat.repr result.file_count ++ " files") ::
    (result.files.getD []).map fun file =>
      file.file_name ++ ":" ++ Nat.repr (specFileCount file))

/-- A file with two chunk matches carrying 2 and 3 ranges respectively. -/
def exCountFile : FileMatch :=
  { file_name := "a.rs", repository := "", language := "", branches := []
    version := ""
    chunk_matches := some
      [{ content := "", content_start := ⟨0, 1, 0⟩
         ranges := [⟨⟨0, 1, 0⟩, ⟨0, 1, 0⟩⟩, ⟨⟨0, 2, 0⟩, ⟨0, 2, 0⟩⟩]
         symbol_info := none },
       { content := "", content_start := ⟨0, 9, 0⟩
         ranges := [⟨⟨0, 9, 0⟩, ⟨0, 9, 0⟩⟩, ⟨⟨0, 10, 0⟩, ⟨0, 10, 0⟩⟩,
           ⟨⟨0, 11, 0⟩, ⟨0, 11, 0⟩⟩]
         symbol_info := none }]
    line_matches := none
    content := "" }

/-- Claim C4: the count renderer emits the
`<match_count> matches in <file_count> files` summary and one
`<file_name>:<count>` line per file, the count being the total number of
ranges in chunk-form, else the number of line matches, else 0; the file with
chunk matches of 2 and 3 ranges counts 5. -/
theorem format_count_spec :
    (∀ result : SearchResult, format_count result = specFormatCount result) ∧
    fileMatchCount exCountFile = 5 := by
  have hf : ∀ file : FileMatch, fileMatchCount file = specFileCount file := by
    intro file
    unfold fileMatchCount specFileCount
    cases file.chunk_matches <;> cases file.line_matches <;> rfl
  refine ⟨?_, by decide⟩
  intro result
  unfold format_count specFormatCount
  simp only [hf]

/-! ### Claim C5: symbol annotation lines (corrected: two-space indent) -/

/-- A chunk whose only symbol annotation is
`{sym := foo, kind := func, parent := Bar}`. -/
def exSymChunk : ChunkMatch :=
  { content := "", content_start := ⟨0, 1, 0⟩, ranges := []
    symbol_info := some [some ⟨"foo", "func", "Bar", ""⟩] }

/-- The same symbol with empty kind and parent. -/
def exSymChunkPlain : ChunkMatch :=
  { content := "", content_start := ⟨0, 1, 0⟩, ranges := []
    symbol_info := some [some ⟨"foo", "", "", ""⟩] }

/-- Counterexample to C5 as stated: for the symbol
`{sym := foo, kind := func, parent := Bar}` the renderer emits
`"  symbol: foo [func] in Bar"` — with two leading spaces — and no line equal
to the claim's `"symbol: foo [func] in Bar"` is emitted. -/
theorem symbol_lines_counterexample :
    chunkSymbolLines exSymChunk = ["  symbol: foo [func] in Bar"] ∧
      "symbol: foo [func] in Bar" ∉ chunkSymbolLines exSymChunk := by
  constructor
  · decide
  · decide

/-- Spec-side symbol lines per the amended claim: for each present
annotation, the line `"  symbol: <sym>"` (two-space indent), extended with
`" [<kind>]"` exactly when `kind` is non-empty and `" in <parent>"` exactly
when `parent` is non-empty. -/
def specSymbolLines (chunk : ChunkMatch) : List String :=
  match chunk.symbol_info with
  | none => []
  | some syms =>
    (syms.filterMap id).map fun sym =>
      "  symbol: " ++ sym.sym ++
        (if sym.kind = "" then "" else " [" ++ sym.kind ++ "]") ++
        (if sym.parent = "" then "" else " in " ++ sym.parent)

/-- Claim C5 as amended: each present symbol annotation (absent slots
skipped) emits `"  symbol: <sym>"` with the bracketed kind appended exactly
when non-empty and the parent suffix appended exactly when non-empty; the
two claim examples render as `"  symbol: foo [func] in Bar"` and
`"  symbol: foo"`. -/
theorem symbol_lines_amended :
    (∀ chunk : ChunkMatch, chunkSymbolLines chunk = specSymbolLines chunk) ∧
      chunkSymbolLines exSymChunk = ["  symbol: foo [func] in Bar"] ∧
      chunkSymbolLines exSymChunkPlain = ["  symbol: foo"] := by
  refine ⟨?_, by decide, by decide⟩
  intro chunk
  unfold chunkSymbolLines specSymbolLines
  cases chunk.symbol_info <;> rfl

/-! ### Claim C6: files-with-matches renderer -/

/-- The digit characters produced by `Nat.digitChar` are never a newline or
a carriage return. -/
theorem digitChar_no_ctrl (d : Nat) :
    Nat.digitChar d ≠ '\n' ∧ Nat.digitChar d ≠ '\r' := by
  by_cases h : d < 16
  · interval_cases d <;> exact ⟨by decide, by decide⟩
  · have e : Nat.digitChar d = '*' := by
      unfold Nat.digitChar
      repeat rw [if_neg (by omega)]
    rw [e]
    exact ⟨by decide, by decide⟩

/-- Every character produced by `Nat.toDigitsCore` is either from the
accumulator or a digit character. -/
theorem toDigitsCore_subset (b : Nat) :
    ∀ (f n : Nat) (acc : List Char), ∀ c ∈ Nat.toDigitsCore b f n acc,
      c ∈ acc ∨ ∃ d, c = Nat.digitChar d
  | 0, _, _, _, hc => Or.inl hc
  | f + 1, n, acc, c, hc => by
    simp only [Nat.toDigitsCore] at hc
    by_cases hz : n / b = 0
    · rw [if_pos hz] at hc
      rcases List.mem_cons.1 hc with h | h
      · exact Or.inr ⟨n % b, h⟩
      · exact Or.inl h
    · rw [if_neg hz] at hc
      rcases toDigitsCore_subset b f (n / b) (Nat.digitChar (n % b) :: acc) c hc
        with h | h
      · rcases List.mem_cons.1 h with h' | h'
        · exact Or.inr ⟨n % b, h'⟩
        · exact Or.inl h'
      · exact Or.inr h

/-- Decimal renderings of naturals contain no newline. -/
theorem repr_no_newline (n : Nat) : '\n' ∉ (Nat.repr n).data := by
  intro hmem
  rcases toDigitsCore_subset 10 (n + 1) n [] '\n' hmem with h | ⟨d, hd⟩
  · simp at h
  · exact absurd hd.symm (digitChar_no_ctrl d).1

/-- Splitting a newline-free segment followed by a newline peels off exactly
that segment. -/
theorem splitNl_append (l rest : List Char) (h : '\n' ∉ l) :
    splitNl (l ++ '\n' :: rest) = l :: splitNl rest := by
  induction l with
  | nil => simp [splitNl]
  | cons c t ih =>
    have hc : c ≠ '\n' := fun e => h (List.mem_cons.2 (Or.inl e.symm))
    have ht : '\n' ∉ t := fun m => h (List.mem_cons_of_mem _ m)
    have e1 : splitNl (c :: (t ++ '\n' :: rest)) =
        match splitNl (t ++ '\n' :: rest) with
        | [] => [[c]]
        | h :: r => (c :: h) :: r := by
      simp only [splitNl, if_neg hc]
    rw [List.cons_append, e1, ih ht]

/-- Splitting the newline-joined form of newline-free lines yields those
lines plus the final empty segment. -/
theorem splitNl_unlines : ∀ ls : List String,
    (∀ l ∈ ls, '\n' ∉ l.data) →
    splitNl (unlines ls).data = ls.map String.data ++ [[]]
  | [], _ => rfl
  | l :: ls, h => by
    have hl : '\n' ∉ l.data := h l (List.mem_cons_self _ _)
    have ih := splitNl_unlines ls fun x hx => h x (List.mem_cons_of_mem _ hx)
    have hdata : (unlines (l :: ls)).data =
        l.data ++ '\n' :: (unlines ls).data := by
      show (l ++ "\n" ++ unlines ls).data = _
      rw [String.data_append, String.data_append, List.append_assoc]
      rfl
    rw [hdata, splitNl_append _ _ hl, ih]
    simp

/-- Parsing the newline-joined form back into lines recovers the lines,
provided each line is newline-free and does not end in a carriage return. -/
theorem strLines_unlines (ls : List String)
    (h : ∀ l ∈ ls, '\n' ∉ l.data ∧ l.data.getLast? ≠ some '\r') :
    strLines (unlines ls) = ls := by
  unfold strLines
  rw [splitNl_unlines ls fun l hl => (h l hl).1]
  have hlast : (ls.map String.data ++ [([] : List Char)]).getLast? =
      some [] := List.getLast?_concat _
  rw [if_pos hlast, List.dropLast_concat, List.map_map, List.map_map]
  have hid : ∀ l ∈ ls, ((String.mk ∘ dropCr) ∘ String.data) l = id l := by
    intro l hl
    show String.mk (dropCr l.data) = l
    rw [dropCr, if_neg (h l hl).2]
  rw [List.map_congr_left hid, List.map_id]

/-- Claim C6: the files-with-matches output consists of exactly the line
`Found <file_count> files` followed by one line per file holding exactly
that file's name, in input order (stated for file names that are themselves
single lines, i.e. contain no newline and do not end in a carriage
return). -/
theorem format_files_lines (result : SearchResult)
    (h : ∀ f ∈ result.files.getD [], '\n' ∉ f.file_name.data ∧
      f.file_name.data.getLast? ≠ some '\r') :
    strLines (format_files result) =
      ("Found " ++ Nat.repr result.file_count ++ " files") ::
        (result.files.getD []).map (fun file => file.file_name) := by
  unfold format_files
  refine strLines_unlines _ ?_
  intro l hl
  rcases List.mem_cons.1 hl with h1 | h2
  · subst h1
    constructor
    · intro hmem
      rw [String.data_append, String.data_append] at hmem
      rcases List.mem_append.1 hmem with hm | hm
      · rcases List.mem_append.1 hm with hm' | hm'
        · exact absurd hm' (by decide)
        · exact repr_no_newline _ hm'
      · exact absurd hm (by decide)
    · rw [String.data_append,
        List.getLast?_append_of_ne_nil _ (by decide :
          (" files" : String).data ≠ [])]
      decide
  · rcases List.mem_map.1 h2 with ⟨f, hf, rfl⟩
    exact h f hf

/-- A concrete two-file result. -/
def exFilesResult : SearchResult :=
  { match_count := 7, file_count := 2, duration := 0
    files := some
      [{ file_name := "a.rs", repository := "", language := "Rust"
         branches := [], version := "", chunk_matches := none
         line_matches := none, content := "" },
       { file_name := "b/c.go", repository := "", language := "Go"
         branches := [], version := "", chunk_matches := none
         line_matches := none, content := "" }] }

/-- Witness for C6: the two-file result renders as the summary line followed
by the two file names and nothing else. -/
theorem format_files_lines_witness :
    strLines (format_files exFilesResult) =
      ["Found 2 files", "a.rs", "b/c.go"] := by
  have h := format_files_lines exFilesResult (by decide)
  exact h.trans (by decide)

/-! ### Claim C7: repository listing renderer (corrected: byte truncation) -/

/-- A repository whose single branch version is nine characters long but
eighteen UTF-8 bytes long. -/
def exRepoResp : ListResponse :=
  ⟨⟨some
    [{ repository :=
        { name := "r", url := "", branches := [⟨"main", "ααααααααα"⟩]
          has_symbols := false }
       stats := { documents := 1, content_bytes := 0, index_bytes := 0 } }]⟩⟩

/-- Counterexample to C7 as stated: the nine-character version
`ααααααααα` (which the claim says is rendered whole, having at most ten
characters) is truncated at ten *bytes* to five characters; the output
contains `(ααααα)` and no line with the full version. -/
theorem branch_version_counterexample :
    format_repos exRepoResp = some ("1 repositories indexed\n" ++
      "  r — 1 files, 0.0 MB content, 0.0 MB index\n" ++
      "    branch: main (ααααα)\n") ∧
    "ααααααααα".data.length ≤ 10 ∧
    "    branch: main (ααααααααα)" ∉ strLines ("1 repositories indexed\n" ++
      "  r — 1 files, 0.0 MB content, 0.0 MB index\n" ++
      "    branch: main (ααααα)\n") := by
  refine ⟨by decide, by decide, by decide⟩

/-- Spec-side branch line per the amended claim: the version is truncated to
its first ten UTF-8 bytes when its byte length exceeds ten (the renderer
fails when the cut splits a character), else rendered whole. -/
def specBranchLine (b : BranchInfo) : Option String :=
  let bytes := utf8Encode b.version.data
  if 10 < bytes.length then
    (utf8Decode? (bytes.take 10)).map fun cs =>
      "    branch: " ++ b.name ++ " (" ++ String.mk cs ++ ")"
  else some ("    branch: " ++ b.name ++ " (" ++ b.version ++ ")")

/-- Spec-side per-repository lines: the summary line with document count,
one-decimal MB sizes and the `[symbols]` marker exactly when `has_symbols`,
followed by the branch lines. -/
def specRepoLines (r : RepoEntry) : Option (List String) :=
  (r.repository.branches.mapM specBranchLine).map fun bls =>
    ("  " ++ r.repository.name ++ " — " ++ Nat.repr r.stats.documents ++
      " files, " ++ fmtMB r.stats.content_bytes ++ " MB content, " ++
      fmtMB r.stats.index_bytes ++ " MB index" ++
      (if r.repository.has_symbols then " [symbols]" else "")) :: bls

/-- Spec-side repository report: `<N> repositories indexed` with `N` the
number of entries (0 when absent), then every repository's lines. -/
def specFormatRepos (resp : ListResponse) : Option String :=
  let repos := resp.list.repos.getD []
  (repos.mapM specRepoLines).map fun blocks =>
    unlines ((Nat.repr repos.length ++ " repositories indexed") ::
      blocks.flatten)

/-- The repository of the spec's stats example. -/
def exStatsRepo : RepoEntry :=
  { repository :=
      { name := "r", url := "", branches := [⟨"main", "abcdefghijklmnop"⟩]
        has_symbols := true }
    stats := { documents := 42, content_bytes := 2097152
               index_bytes := 1048576 } }

/-- Claim C7 as amended: the repository report consists of the
`<N> repositories indexed` header, per repository the
`  <name> — <documents> files, <content_mb> MB content, <index_mb> MB index`
line (one-decimal MB values, `[symbols]` iff `has_symbols`), and per branch
`    branch: <name> (<short_version>)` where the version is truncated to its
first ten UTF-8 *bytes* when longer than ten bytes; sixteen-byte
`abcdefghijklmnop` truncates to `abcdefghij`, four-byte `v1.2` stays whole,
and the stats example renders with `2.0` and `1.0` MB and `[symbols]`. -/
theorem format_repos_amended :
    (∀ resp : ListResponse, format_repos resp = specFormatRepos resp) ∧
    shortVersion "abcdefghijklmnop" = some "abcdefghij" ∧
    shortVersion "v1.2" = some "v1.2" ∧
    repoLines exStatsRepo = some
      ["  r — 42 files, 2.0 MB content, 1.0 MB index [symbols]",
       "    branch: main (abcdefghij)"] := by
  have hbl : branchLine = specBranchLine := by
    funext b
    unfold branchLine specBranchLine shortVersion
    by_cases h10 : 10 < (utf8Encode b.version.data).length
    · simp only [if_pos h10]
      cases utf8Decode? ((utf8Encode b.version.data).take 10) <;> rfl
    · simp only [if_neg h10]
      rfl
  have hrl : repoLines = specRepoLines := by
    unfold repoLines specRepoLines
    rw [hbl]
  refine ⟨?_, by decide, by decide, by decide⟩
  intro resp
  unfold format_repos specFormatRepos
  rw [hrl]

/-! ### Claim C8: remote-call error strings (corrected literals) -/

/-- Counterexample to C8 as stated: a body that fails to parse yields
`"Failed to parse Zoekt response: <cause>"`, not the claim's
`"Failed to parse response: <cause>"`. -/
theorem parse_error_string_counterexample :
    post (fun _ => (Except.error "missing field" : Except String SearchResponse))
        "http://h:6070/api/search" (HttpOutcome.response ⟨200, "OK"⟩ "{}") =
      Except.error "Failed to parse Zoekt response: missing field" ∧
    "Failed to parse Zoekt response: missing field" ≠
      "Failed to parse response: missing field" := by
  refine ⟨rfl, by decide⟩

/-- A concrete search input with all optional fields omitted. -/
def exSearchInput : SearchInput :=
  { query := "fn main", limit := none, context_lines := none
    output_mode := none }

/-- Claim C8 as amended: an unreachable host yields exactly
`"Cannot reach Zoekt at <url>: <cause>"`, a non-2xx response yields exactly
`"Zoekt returned <status line>: <body>"`, a 2xx body that fails to parse
yields exactly `"Failed to parse Zoekt response: <cause>"`, both tools
return such error strings as their ordinary text result, and the claim's
500-status example produces exactly
`"Zoekt returned 500 Internal Server Error: index not ready"`. -/
theorem post_error_strings :
    (∀ (R : Type) (parse : String → Except String R) (url cause : String),
      post parse url (HttpOutcome.unreachable cause) =
        Except.error ("Cannot reach Zoekt at " ++ url ++ ": " ++ cause)) ∧
    (∀ (R : Type) (parse : String → Except String R) (url : String)
      (st : HttpStatus) (body : String),
      ¬(200 ≤ st.code ∧ st.code < 300) →
      post parse url (HttpOutcome.response st body) =
        Except.error ("Zoekt returned " ++ statusDisplay st ++ ": " ++ body)) ∧
    (∀ (R : Type) (parse : String → Except String R) (url : String)
      (st : HttpStatus) (body cause : String),
      (200 ≤ st.code ∧ st.code < 300) → parse body = Except.error cause →
      post parse url (HttpOutcome.response st body) =
        Except.error ("Failed to parse Zoekt response: " ++ cause)) ∧
    (∀ (base_url : String) (input : SearchInput)
      (parse : String → Except String SearchResponse)
      (outcome : SearchRequest → HttpOutcome) (e : String),
      post parse (base_url ++ "/api/search")
          (outcome (buildSearchRequest input)) = Except.error e →
      search base_url input parse outcome = e) ∧
    (∀ (base_url : String) (input : ListReposInput)
      (parse : String → Except String ListResponse)
      (outcome : ListRequest → HttpOutcome) (e : String),
      post parse (base_url ++ "/api/list")
          (outcome ({ q := input.query.getD "" } : ListRequest)) =
        Except.error e →
      list_repos base_url input parse outcome = some e) ∧
    post (fun _ => (Except.error "" : Except String SearchResponse))
        "http://localhost:6070/api/search"
        (HttpOutcome.response ⟨500, "Internal Server Error"⟩
          "index not ready") =
      Except.error "Zoekt returned 500 Internal Server Error: index not ready" := by
  refine ⟨fun R parse url cause => rfl, ?_, ?_, ?_, ?_, rfl⟩
  · intro R parse url st body hst
    simp only [post]
    rw [if_neg hst]
  · intro R parse url st body cause hst hp
    simp only [post]
    rw [if_pos hst, hp]
  · intro base_url input parse outcome e h
    simp only [search]
    rw [h]
  · intro base_url input parse outcome e h
    simp only [list_repos]
    rw [h]

/-- Witness for C8 at concrete inputs: an unreachable host makes the search
tool return the `Cannot reach Zoekt at ...` text as its result. -/
theorem post_error_strings_witness :
    search "http://localhost:6070" exSearchInput (fun _ => Except.error "boom")
      (fun _ => HttpOutcome.unreachable "connection refused") =
      "Cannot reach Zoekt at http://localhost:6070/api/search: connection refused" := by
  have h := post_error_strings.2.2.2.1 "http://localhost:6070" exSearchInput
    (fun _ => Except.error "boom")
    (fun _ => HttpOutcome.unreachable "connection refused")
    "Cannot reach Zoekt at http://localhost:6070/api/search: connection refused"
    rfl
  exact h

/-! ### Claim C9: search dispatcher -/

/-- A successful concrete search response. -/
def exSearchResponse : SearchResponse :=
  ⟨{ match_count := 0, file_count := 0, duration := 0, files := none }⟩

/-- Claim C9: the dispatcher builds the request with `max_results` equal to
the limit (25 when omitted), `context_lines` given or defaulted to 2 in
content mode and 0 otherwise, chunk-form requested exactly in content mode
and `whole` false; a successful result is routed to the renderer matching
the output mode; and an omitted or unrecognized output mode behaves
identically to an explicit `files_with_matches`. -/
theorem search_dispatch_spec :
    (∀ input : SearchInput,
      buildSearchRequest input =
        { q := input.query
          opts := some
            { max_doc_display_count := input.limit.getD 25
              num_context_lines := input.context_lines.getD
                (if input.output_mode.getD "files_with_matches" = "content"
                 then 2 else 0)
              chunk_matches :=
                decide (input.output_mode.getD "files_with_matches" = "content")
              whole := false } }) ∧
    (∀ (base_url : String) (input : SearchInput)
      (parse : String → Except String SearchResponse)
      (outcome : SearchRequest → HttpOutcome) (parsed : SearchResponse),
      post parse (base_url ++ "/api/search")
          (outcome (buildSearchRequest input)) = Except.ok parsed →
      search base_url input parse outcome =
        (if input.output_mode.getD "files_with_matches" = "content"
         then format_content parsed.result
         else if input.output_mode.getD "files_with_matches" = "count"
         then format_count parsed.result
         else format_files parsed.result)) ∧
    (∀ (base_url : String) (input : SearchInput)
      (parse : String → Except String SearchResponse)
      (outcome : SearchRequest → HttpOutcome),
      input.output_mode = none →
      search base_url input parse outcome =
        search base_url { input with output_mode := some "files_with_matches" }
          parse outcome) ∧
    (∀ (base_url : String) (input : SearchInput)
      (parse : String → Except String SearchResponse)
      (outcome : SearchRequest → HttpOutcome) (m : String),
      input.output_mode = some m → m ≠ "content" → m ≠ "count" →
      m ≠ "files_with_matches" →
      search base_url input parse outcome =
        search base_url { input with output_mode := some "files_with_matches" }
          parse outcome) := by
  refine ⟨fun input => rfl, ?_, ?_, ?_⟩
  · intro base_url input parse outcome parsed h
    simp only [search]
    rw [h]
  · intro base_url input parse outcome h
    unfold search buildSearchRequest
    simp [h]
  · intro base_url input parse outcome m hm h1 h2 h3
    unfold search buildSearchRequest
    simp [hm, h1, h2]

/-- Witness for C9: with the output mode omitted and a successful remote
call, the dispatcher renders with the files-with-matches renderer. -/
theorem search_dispatch_spec_witness :
    search "b" exSearchInput (fun _ => Except.ok exSearchResponse)
      (fun _ => HttpOutcome.response ⟨200, "OK"⟩ "{}") =
      (if exSearchInput.output_mode.getD "files_with_matches" = "content"
       then format_content exSearchResponse.result
       else if exSearchInput.output_mode.getD "files_with_matches" = "count"
       then format_count exSearchResponse.result
       else format_files exSearchResponse.result) := by
  exact search_dispatch_spec.2.1 "b" exSearchInput
    (fun _ => Except.ok exSearchResponse)
    (fun _ => HttpOutcome.response ⟨200, "OK"⟩ "{}") exSearchResponse rfl

end Zoekt
